import Mathlib

/-!
# DevPolio secure-wipe console: inventory, confirmation, method policy, verification

A shallow embedding of `src/main.cpp`.  `std::string` is `String`, one `Char`
standing for one `char`; the character-level routines work on the underlying
`List Char`.  Calls that talk
to the outside world (`popen`, `system`, `wgetch`, `mvwgetnstr`, the detection
log file) become explicit inputs, and what the program does to the outside
world becomes a list of `Event`s.
-/

namespace DevPolio

/-! ## Strings -/

/-- The test `s.find(pat) != std::string::npos` on character lists. -/
def containsL (pat : List Char) : List Char → Bool
  | [] => pat.isEmpty
  | c :: s => pat.isPrefixOf (c :: s) || containsL pat s

/-- The test `s.find(pat) != std::string::npos`. -/
def hasSub (s pat : String) : Bool := containsL pat.data s.data

/-- The test `s.rfind(pat, 0) == 0`: an occurrence of `pat` starting at
position 0 is the only one `rfind` may report when the search starts at 0. -/
def startsWith (s pat : String) : Bool := pat.data.isPrefixOf s.data

/-- Whitespace as classified by `operator>>` in the classic locale. -/
def isspace (c : Char) : Bool :=
  c = ' ' || c = '\t' || c = '\n' || c = '\x0b' || c = '\x0c' || c = '\r'

/-- The loop `while (ss >> token)`: the maximal runs of non-whitespace
characters, in order.  `cur` is the token being read, reversed. -/
def tokensAux : List Char → List Char → List (List Char)
  | cur, [] => if cur = [] then [] else [cur.reverse]
  | cur, c :: s =>
    if isspace c then
      (if cur = [] then tokensAux [] s else cur.reverse :: tokensAux [] s)
    else tokensAux (c :: cur) s

/-- All tokens of a line. -/
def tokens (l : List Char) : List (List Char) := tokensAux [] l

/-- Width of `size_t`. -/
def SIZE_BITS : Nat := 64

/-- The call `v.substr(pos, count)` for `pos ≤ v.size()`. -/
def substr (v : List Char) (pos count : Nat) : List Char := (v.drop pos).take count

/-- Quote stripping of a value (main.cpp:78):
`if (v.size() && v.front() == '"' && v.back() == '"') v = v.substr(1, v.size()-2);`
The count `v.size()-2` is computed in `size_t`. -/
def unquote (v : List Char) : List Char :=
  if v.length ≠ 0 ∧ v.head? = some '"' ∧ v.getLast? = some '"' then
    substr v 1 ((v.length + 2 ^ SIZE_BITS - 2) % 2 ^ SIZE_BITS)
  else v

/-- One token of a listing line (main.cpp:74-78): `none` when the token has no
`=`, otherwise the key before the first `=` and the unquoted value after it. -/
def parseToken (token : List Char) : Option (String × String) :=
  let eq := token.indexOf '='
  if eq = token.length then none
  else some (String.mk (token.take eq), String.mk (unquote (token.drop (eq + 1))))

/-- The `std::map<std::string,std::string> kv`, as the list of assignments
`kv[k] = v` made so far, newest first. -/
abbrev KV := List (String × String)

/-- Reading `kv[k]`: the value last assigned to `k`, the empty string when
there is none. -/
def KV.get (m : KV) (k : String) : String :=
  match m.lookup k with
  | some v => v
  | none => ""

/-- The token loop of `list_disks` (main.cpp:73-80) on the tokens of a line. -/
def assignTokens : KV → List (List Char) → KV
  | m, [] => m
  | m, t :: ts =>
    match parseToken t with
    | none => assignTokens m ts
    | some (k, v) => assignTokens ((k, v) :: m) ts

/-- The key/value map of one line. -/
def parseLine (l : List Char) : KV := assignTokens [] (tokens l)

/-! ## Inventory parser -/

/-- The record `struct Disk` (main.cpp:14-21). -/
structure Disk where
  name : String
  node : String
  model : String
  serial : String
  size : String
  rota : String
deriving DecidableEq

/-- What one line contributes to the inventory (main.cpp:81-89). -/
def diskOfLine (l : List Char) : Option Disk :=
  let kv := parseLine l
  if kv.get "TYPE" ≠ "disk" ∧ kv.get "TYPE" ≠ "loop" then none
  else some
    { name := kv.get "NAME"
      node := "/dev/" ++ kv.get "NAME"
      model := kv.get "MODEL"
      serial := kv.get "SERIAL"
      size := kv.get "SIZE"
      rota := kv.get "ROTA" }

/-- The call `fgets(buf, n + 1, fp)` on the unread part of the stream: at most
`n` characters, ending after the first newline; returns what was read and what
remains unread. -/
def fgets : Nat → List Char → List Char × List Char
  | 0, s => ([], s)
  | _ + 1, [] => ([], [])
  | n + 1, c :: s =>
    if c = '\n' then ([c], s) else (c :: (fgets n s).1, (fgets n s).2)

/-- Size of `char line[1024]`. -/
def LINE_BUF : Nat := 1024

/-- The loop `while (fgets(line, sizeof(line), fp))`: the successive buffers
read until the stream is exhausted.  Every round on a non-empty stream
consumes a character, so `fuel = length of the stream` rounds suffice. -/
def readLoop : Nat → List Char → List (List Char)
  | 0, _ => []
  | fuel + 1, s =>
    if s = [] then []
    else (fgets (LINE_BUF - 1) s).1 :: readLoop fuel (fgets (LINE_BUF - 1) s).2

/-- The conversion `std::string l(line)`: the buffer up to its first NUL. -/
def cstr (buf : List Char) : List Char := buf.takeWhile (fun c => c ≠ '\x00')

/-- The function `list_disks` (main.cpp:63-93).  The argument is what
`popen("lsblk -P -o NAME,TYPE,SIZE,MODEL,SERIAL,ROTA")` delivers: `none` when
the pipe cannot be opened, otherwise the text written by the command. -/
def list_disks : Option String → List Disk
  | none => []
  | some text =>
    (readLoop text.data.length text.data).filterMap (fun buf => diskOfLine (cstr buf))

/-- The lines of a text as `std::getline` delivers them: split at every
newline, without a final empty piece.  `cur` is the current line, reversed. -/
def getlinesAux : List Char → List Char → List (List Char)
  | cur, [] => if cur = [] then [] else [cur.reverse]
  | cur, c :: s =>
    if c = '\n' then cur.reverse :: getlinesAux [] s else getlinesAux (c :: cur) s

/-- The lines of a text. -/
def getlines (text : String) : List (List Char) := getlinesAux [] text.data

/-- The value a line gives to the key `k`: what `kv[k]` holds after the token
loop has run over the whole line. -/
def valueOf (l : List Char) (k : String) : String := (parseLine l).get k

/-- A listing of one line of 1033 characters: the token `TYPE="disk"`, 1012
spaces, the token `NAME="sda"`, and the newline. -/
def longLine : String :=
  "TYPE=\"disk\"" ++ String.mk (List.replicate 1012 ' ') ++ "NAME=\"sda\"\n"

/-! ## Keys, events and inputs -/

/-- The code of a character constant such as `'r'`. -/
def chr (c : Char) : Int := (c.toNat : Int)

/-- The key code `KEY_DOWN` of ncurses.h (octal 0402). -/
def KEY_DOWN : Int := 258

/-- The key code `KEY_UP` of ncurses.h (octal 0403). -/
def KEY_UP : Int := 259

/-- The key code `KEY_ENTER` of ncurses.h (octal 0527). -/
def KEY_ENTER : Int := 343

/-- What the program does to the outside world, in program order. -/
inductive Event where
  | confirm_screen (d : Disk) (confirm_prompt : String)
  | method_screen (node method : String) (force_note : Bool)
  | draw_progress (title message : String)
  | run_system (cmd : String)
  | run_cmd_capture (cmd : String)
  | popen_lsblk
  | show_result (success : Bool) (title message details : String)
deriving DecidableEq

/-- What the outside world answers while one ENTER press of the local-disk
flow is handled, in the order the program asks: the line typed at the
confirmation prompt (`mvwgetnstr`, at most 255 characters), the key pressed on
the method screen, the status of the wipe command, the status of the
`partprobe` command, the output of `wipefs`, the `lsblk` output of the
verification listing and the `lsblk` output of the final re-listing.  The keys
awaited by `wgetch` after a result screen are not used by the program. -/
structure WipeInput where
  confirm : String
  okc : Int
  rc : Int
  probe_rc : Int
  wipefs_out : String
  refreshed : Option String
  relisted : Option String

/-- The variables of the local-disk flow (main.cpp:340-342). -/
structure Stage1 where
  disks : List Disk
  idx : Int
  loopIndex : Int
deriving DecidableEq

/-- What one round of an interactive loop leads to: the loop goes on with a
new state, the flow returns to the menu (`stage = 0; break`), the program
ends (`endwin(); return 0`), or the round indexes the snapshot outside its
bounds, which C++ leaves undefined. -/
inductive Next (σ : Type) where
  | stay (s : σ) (events : List Event)
  | back
  | quit
  | undefined
deriving DecidableEq

/-! ## Local-disk flow -/

/-- The flag of main.cpp:364, `d.node.rfind("/dev/loop", 0) == 0`. -/
def is_loop (d : Disk) : Bool := startsWith d.node "/dev/loop"

/-- The prompt of main.cpp:363-369. -/
def confirm_prompt (d : Disk) : String :=
  if d.serial ≠ "" ∧ is_loop d = false then "Type device SERIAL to confirm wipe:"
  else "Type device node (" ++ d.node ++ ") to confirm wipe:"

/-- Serial synthesis (main.cpp:394-396). -/
def synthSerial (loopIndex : Int) (d : Disk) : Disk :=
  if d.serial = "" then { d with serial := "LOOP-" ++ toString loopIndex } else d

/-- The comparison of main.cpp:398-402, on the device after serial synthesis;
`loop` is the flag computed at main.cpp:364. -/
def confirmed (loop : Bool) (d : Disk) (confirm : String) : Bool :=
  if d.serial ≠ "" ∧ loop = false then decide (confirm = d.serial)
  else decide (confirm = d.node)

/-- The confirmation step for a selected device (main.cpp:364, 393-402): the
device as it is left in the snapshot, and whether the typed line confirms. -/
def confirmation (loopIndex : Int) (d : Disk) (confirm : String) : Disk × Bool :=
  (synthSerial loopIndex d, confirmed (is_loop d) (synthSerial loopIndex d) confirm)

/-- Method selection (main.cpp:412-421). -/
def selectMethod (node model : String) : String :=
  if hasSub node "nvme" then "nvme-format"
  else if hasSub node "loop" then "wipefs-zap"
  else if hasSub node "sd" || hasSub model "ATA" then "ata-secure-erase"
  else "overwrite-zero"

/-- The Erase Executor command (main.cpp:436-441). -/
def wipe_cmd (loop : Bool) (node method : String) : String :=
  if loop then
    "sudo bash ./wipe-device.sh " ++ node ++ " " ++ method ++ " > /tmp/sentinel-wipe.log 2>&1"
  else
    "sudo FORCE_REAL=1 bash /opt/sentinel/scripts/wipe-device.sh " ++ node ++ " " ++ method
      ++ " > /tmp/sentinel-wipe.log 2>&1"

/-- The flag `still_exists` (main.cpp:452-453). -/
def still_exists (refreshed : List Disk) (node : String) : Bool :=
  refreshed.any (fun x => decide (x.node = node))

/-- The text `details` (main.cpp:456-459). -/
def details (wipefs_out : String) : String :=
  if wipefs_out ≠ "" then "Log: /tmp/sentinel-wipe.log\n" ++ ("Wipefs output:\n" ++ wipefs_out)
  else "Log: /tmp/sentinel-wipe.log\n"

/-- The result screen of the verification step (main.cpp:461-470). -/
def wipe_result (rc : Int) (still : Bool) (details : String) : Event :=
  if rc = 0 ∧ still = false then
    .show_result true "Wipe Complete" "Device successfully wiped and removed" details
  else if rc = 0 ∧ still = true then
    .show_result true "Wipe Complete" "Device wiped but still visible (check details)" details
  else
    .show_result false "Wipe Failed" "Operation failed - see log for details" details

/-- Dispatch and verification (main.cpp:443-470) for the device at `node`:
the wipe command with status `rc`, the re-scan request whose status is
discarded, the `wipefs` query, the verification listing `refreshed` and the
result screen. -/
def verification (node cmd : String) (rc _probe_rc : Int) (wipefs_out : String)
    (refreshed : List Disk) : List Event :=
  [ .draw_progress "Wiping Device" "Please wait... This may take several minutes",
    .run_system cmd,
    .run_system ("sudo partprobe " ++ node ++ " >/dev/null 2>&1 || true"),
    .run_cmd_capture ("sudo wipefs " ++ node ++ " 2>/dev/null || true"),
    .popen_lsblk,
    wipe_result rc (still_exists refreshed node) (details wipefs_out) ]

/-- The index adjustment after a re-listing (main.cpp:354 and 475):
`if (idx >= (int)disks.size()) idx = (int)disks.size() - 1;`.  The cast
`(int)disks.size()` is the size itself for a snapshot of fewer than 2^31
devices. -/
def clamp (idx : Int) (disks : List Disk) : Int :=
  if idx ≥ (disks.length : Int) then (disks.length : Int) - 1 else idx

/-- The rejection screen (main.cpp:405-407). -/
def mismatch_result : Event :=
  .show_result false "Wipe Cancelled" "Serial/node mismatch"
    "The confirmation text did not match. Operation aborted for safety."

/-- The ENTER branch of the local-disk flow (main.cpp:359-476).  `d` is a
reference into the snapshot, so the synthesized serial is stored in it. -/
def enterKey (s : Stage1) (inp : WipeInput) : Next Stage1 :=
  if s.disks = [] then .stay s []
  else if s.idx < 0 then .undefined
  else
    match s.disks[s.idx.toNat]? with
    | none => .undefined
    | some d0 =>
      let loop := is_loop d0
      let d := (confirmation s.loopIndex d0 inp.confirm).1
      let s1 : Stage1 := { s with disks := s.disks.set s.idx.toNat d }
      let ev1 := [Event.confirm_screen d0 (confirm_prompt d0)]
      if (confirmation s.loopIndex d0 inp.confirm).2 = false then
        .stay s1 (ev1 ++ [mismatch_result])
      else
        let method := selectMethod d.node d.model
        let ev2 := ev1 ++ [Event.method_screen d.node method (!loop)]
        if inp.okc = chr 'b' ∨ inp.okc = chr 'B' then .stay s1 ev2
        else if ¬ (inp.okc = 10 ∨ inp.okc = KEY_ENTER) then .stay s1 ev2
        else
          let disks := list_disks inp.relisted
          .stay { s1 with disks := disks, idx := clamp s.idx disks }
            (ev2 ++ verification d.node (wipe_cmd loop d.node method) inp.rc inp.probe_rc
                inp.wipefs_out (list_disks inp.refreshed)
              ++ [Event.popen_lsblk])

/-- One round of the local-disk loop (main.cpp:344-477) on the key `ch`;
`listing` is the `lsblk` output read when the key is R. -/
def stage1Key (s : Stage1) (ch : Int) (listing : Option String) (inp : WipeInput) :
    Next Stage1 :=
  if ch = KEY_UP ∧ s.idx > 0 then .stay { s with idx := s.idx - 1 } []
  else if ch = KEY_DOWN ∧ s.idx < (s.disks.length : Int) - 1 then
    .stay { s with idx := s.idx + 1 } []
  else if ch = chr 'r' ∨ ch = chr 'R' then
    .stay { s with disks := list_disks listing, idx := clamp s.idx (list_disks listing) }
      [Event.popen_lsblk]
  else if ch = chr 'b' ∨ ch = chr 'B' then .back
  else if ch = chr 'q' ∨ ch = chr 'Q' then .quit
  else if ch = 10 ∨ ch = KEY_ENTER then enterKey s inp
  else .stay s []

/-- Entering the local-disk flow (main.cpp:340-342); `loopIndex` is the value
the static counter has at that moment. -/
def stage1Init (listing : Option String) (loopIndex : Int) : Stage1 :=
  { disks := list_disks listing, idx := 0, loopIndex := loopIndex }

/-- The local-disk loop on a sequence of keys with their answers: the state
reached and the events so far, or `none` once the loop has been left or has
indexed the snapshot out of bounds. -/
def stage1Run : Stage1 → List (Int × Option String × WipeInput) → Option (Stage1 × List Event)
  | s, [] => some (s, [])
  | s, (ch, listing, inp) :: rest =>
    match stage1Key s ch listing inp with
    | .stay s1 ev =>
      match stage1Run s1 rest with
      | some (s2, ev2) => some (s2, ev ++ ev2)
      | none => none
    | _ => none

/-- The result screens among a list of events: success flag and message. -/
def results : List Event → List (Bool × String)
  | [] => []
  | .show_result ok _ message _ :: es => (ok, message) :: results es
  | _ :: es => results es

/-- Whether an event runs a command or lists the inventory. -/
def Event.isCommand : Event → Bool
  | .run_system _ => true
  | .run_cmd_capture _ => true
  | .popen_lsblk => true
  | _ => false

/-! ## Android flow -/

/-- The variables of the Android flow (main.cpp:481-482). -/
structure Android where
  mode : String
  detected_device : String
deriving DecidableEq

/-- What the outside world answers while one key of the Android flow is
handled: the contents of the detection log after the detector ran (`none`
when the log cannot be opened) and the status of the wiper. -/
structure AndroidInput where
  detect_log : Option String
  wipe_rc : Int

/-- The call `line.find_last_of(c)`; `none` stands for `npos`. -/
def find_last_of (line : List Char) (c : Char) : Option Nat :=
  if line.reverse.indexOf c = line.length then none
  else some (line.length - 1 - line.reverse.indexOf c)

/-- The scan of the detection log (main.cpp:502-510): the first line
containing "Found" ends the scan; `serial` is assigned only when that line has
a space. -/
def scanLog : List (List Char) → String
  | [] => ""
  | line :: rest =>
    if containsL "Found".data line then
      match find_last_of line ' ' with
      | some pos => String.mk (line.drop (pos + 1))
      | none => ""
    else scanLog rest

/-- The identifier read from the detection log (main.cpp:501-512). -/
def readDetectLog : Option String → String
  | none => ""
  | some log => scanLog (getlines log)

/-- The detection branch (main.cpp:494-522). -/
def detect (s : Android) (inp : AndroidInput) : Android × List Event :=
  let serial := readDetectLog inp.detect_log
  ({ s with detected_device := serial },
    [ Event.draw_progress "Detecting Android Devices" ("Scanning for " ++ s.mode ++ " devices..."),
      Event.run_system ("bash /opt/sentinel/scripts/detect-android.sh " ++ s.mode
        ++ " > /tmp/sentinel-detect.log 2>&1") ]
    ++ (if serial = "" then
          [Event.show_result false "Detection Failed" ("No " ++ s.mode ++ " device found")
            "Make sure device is connected and in correct mode"]
        else []))

/-- The wiper command (main.cpp:529). -/
def android_wipe_cmd (mode dev : String) : String :=
  "bash /opt/sentinel/scripts/android-wipe.sh " ++ mode ++ " " ++ dev
    ++ " > /tmp/sentinel-android.log 2>&1"

/-- The wipe branch (main.cpp:523-539). -/
def androidWipe (s : Android) (inp : AndroidInput) : Android × List Event :=
  if s.detected_device = "" then (s, [])
  else
    ({ s with detected_device := "" },
      [ Event.draw_progress "Wiping Android Device"
          ("Wiping " ++ s.detected_device ++ " via " ++ s.mode),
        Event.run_system (android_wipe_cmd s.mode s.detected_device),
        Event.show_result (decide (inp.wipe_rc = 0)) "Android Wipe"
          (if inp.wipe_rc = 0 then "Device wipe completed" else "Wipe operation failed")
          ("Device: " ++ s.detected_device ++ "\nMode: " ++ s.mode
            ++ "\nLog: /tmp/sentinel-android.log") ])

/-- One round of the Android loop (main.cpp:484-540) on the key `ch`. -/
def androidKey (s : Android) (ch : Int) (inp : AndroidInput) : Next Android :=
  if ch = chr '1' then .stay { s with mode := "fastboot" } []
  else if ch = chr '2' then .stay { s with mode := "adb" } []
  else if ch = chr 'b' ∨ ch = chr 'B' then .back
  else if ch = chr 'q' ∨ ch = chr 'Q' then .quit
  else if ch = chr 'r' ∨ ch = chr 'R' ∨ (ch = 10 ∧ s.detected_device = "") then
    .stay (detect s inp).1 (detect s inp).2
  else if ch = 10 ∨ ch = KEY_ENTER then .stay (androidWipe s inp).1 (androidWipe s inp).2
  else .stay s []

/-- Entering the Android flow (main.cpp:481-482). -/
def androidInit : Android := { mode := "fastboot", detected_device := "" }

/-- The Android loop on a sequence of keys with their answers: the state
reached and the events so far, or `none` once the loop has been left. -/
def androidRun : Android → List (Int × AndroidInput) → Option (Android × List Event)
  | s, [] => some (s, [])
  | s, (ch, inp) :: rest =>
    match androidKey s ch inp with
    | .stay s1 ev =>
      match androidRun s1 rest with
      | some (s2, ev2) => some (s2, ev ++ ev2)
      | none => none
    | _ => none

/-- The function `split_tokens` (main.cpp:49-61); its loop is the token loop
of `list_disks`, run on the map `m`. -/
def split_tokens (line : String) (m : KV) : KV := assignTokens m (tokens line.data)

/-! ## Facts about the string routines -/

theorem containsL_iff (pat s : List Char) : containsL pat s = true ↔ pat <:+: s := by
  induction s with
  | nil => simp [containsL]
  | cons c s ih =>
    simp only [containsL, Bool.or_eq_true, ih, List.infix_cons_iff, List.isPrefixOf_iff_prefix]

theorem hasSub_iff (s pat : String) : hasSub s pat = true ↔ pat.data <:+: s.data :=
  containsL_iff pat.data s.data

theorem startsWith_iff (s pat : String) : startsWith s pat = true ↔ pat.data <+: s.data := by
  simp [startsWith, List.isPrefixOf_iff_prefix]

/-! ## Identity confirmation -/

theorem synthSerial_node (loopIndex : Int) (d : Disk) :
    (synthSerial loopIndex d).node = d.node := by
  unfold synthSerial; split <;> rfl

theorem synthSerial_model (loopIndex : Int) (d : Disk) :
    (synthSerial loopIndex d).model = d.model := by
  unfold synthSerial; split <;> rfl

/-- C1: for a device whose node does not start with "/dev/loop" and whose
serial is non-empty, the confirmation step confirms a typed line if and only
if the line is equal to the serial, as strings. -/
theorem confirmation_serial (loopIndex : Int) (d : Disk) (confirm : String)
    (hloop : ¬ "/dev/loop".data <+: d.node.data) (hserial : d.serial ≠ "") :
    (confirmation loopIndex d confirm).2 = true ↔ confirm = d.serial := by
  have hl : is_loop d = false := by
    rw [← Bool.not_eq_true, is_loop, startsWith_iff]; exact hloop
  simp [confirmation, confirmed, synthSerial, hserial, hl]

/-- Serial "ABC123" on a real device rejects the typed line "abc123". -/
theorem confirmation_serial_witness :
    ¬ (confirmation 0 ⟨"sda", "/dev/sda", "Samsung", "ABC123", "1G", "0"⟩ "abc123").2 = true :=
  fun h => absurd
    ((confirmation_serial 0 ⟨"sda", "/dev/sda", "Samsung", "ABC123", "1G", "0"⟩ "abc123"
      (by decide) (by decide)).mp h) (by decide)

/-- For a loopback device the confirmation step confirms a typed line if and
only if the line is equal to the node. -/
theorem confirmation_loop (loopIndex : Int) (d : Disk) (confirm : String)
    (hloop : "/dev/loop".data <+: d.node.data) :
    (confirmation loopIndex d confirm).2 = true ↔ confirm = d.node := by
  have hl : is_loop d = true := by rw [is_loop, startsWith_iff]; exact hloop
  simp [confirmation, confirmed, hl, synthSerial_node]

/-- C2, what the code does: for a device whose node does not start with
"/dev/loop" and whose serial is empty, the prompt asks for the node, yet the
confirmation step confirms a typed line if and only if the line is the
synthesized serial "LOOP-" followed by the counter; the node is rejected. -/
theorem confirmation_no_serial (loopIndex : Int) (d : Disk) (confirm : String)
    (hloop : ¬ "/dev/loop".data <+: d.node.data) (hserial : d.serial = "") :
    confirm_prompt d = "Type device node (" ++ d.node ++ ") to confirm wipe:" ∧
    ((confirmation loopIndex d confirm).2 = true ↔ confirm = "LOOP-" ++ toString loopIndex) := by
  have hl : is_loop d = false := by
    rw [← Bool.not_eq_true, is_loop, startsWith_iff]; exact hloop
  have hne : ("LOOP-" ++ toString loopIndex) ≠ "" := by
    intro h
    have := congrArg String.data h
    simp [String.data_append] at this
  simp [confirmation, confirmed, synthSerial, hserial, hl, hne, confirm_prompt]

/-- The device "/dev/sda" without a serial: the prompt names the node, the
node is rejected and "LOOP-0" is accepted. -/
theorem confirmation_no_serial_witness :
    confirm_prompt ⟨"sda", "/dev/sda", "", "", "1G", "0"⟩
      = "Type device node (/dev/sda) to confirm wipe:" ∧
    (confirmation 0 ⟨"sda", "/dev/sda", "", "", "1G", "0"⟩ "/dev/sda").2 = false ∧
    (confirmation 0 ⟨"sda", "/dev/sda", "", "", "1G", "0"⟩ "LOOP-0").2 = true :=
  ⟨by decide, by decide,
    (confirmation_no_serial 0 ⟨"sda", "/dev/sda", "", "", "1G", "0"⟩ "LOOP-0"
      (by decide) (by decide)).2.mpr (by decide)⟩

/-! ## Method selection -/

/-- C4: method selection depends on the node and the model only and takes the
first match of: node contains "nvme" gives nvme-format; node contains "loop"
gives wipefs-zap; node contains "sd" or model contains "ATA" gives
ata-secure-erase; otherwise overwrite-zero.  A node containing both "nvme" and
"loop" gives nvme-format, "/dev/loop0" gives wipefs-zap and "/dev/nvme0n1"
gives nvme-format. -/
theorem selectMethod_policy :
    (∀ node model : String, selectMethod node model =
      if "nvme".data <:+: node.data then "nvme-format"
      else if "loop".data <:+: node.data then "wipefs-zap"
      else if "sd".data <:+: node.data ∨ "ATA".data <:+: model.data then "ata-secure-erase"
      else "overwrite-zero") ∧
    (∀ node model : String, "nvme".data <:+: node.data → "loop".data <:+: node.data →
      selectMethod node model = "nvme-format") ∧
    (∀ model : String, selectMethod "/dev/loop0" model = "wipefs-zap") ∧
    (∀ model : String, selectMethod "/dev/nvme0n1" model = "nvme-format") := by
  have key : ∀ node model : String, selectMethod node model =
      if "nvme".data <:+: node.data then "nvme-format"
      else if "loop".data <:+: node.data then "wipefs-zap"
      else if "sd".data <:+: node.data ∨ "ATA".data <:+: model.data then "ata-secure-erase"
      else "overwrite-zero" := by
    intro node model
    simp only [selectMethod, Bool.or_eq_true, hasSub_iff]
  refine ⟨key, ?_, ?_, ?_⟩
  · intro node model h1 _
    rw [key, if_pos h1]
  · intro model
    rw [key, if_neg (by decide), if_pos (by decide)]
  · intro model
    rw [key, if_pos (by decide)]

/-! ## Verification step -/

/-- C5: for every exit status `rc`, wiped node and post-wipe snapshot, the
verification step shows exactly one result: success "wiped and removed" when
`rc = 0` and no device of the snapshot has the node, success "wiped but still
visible" when `rc = 0` and some device of the snapshot has the node, failure
"Operation failed" when `rc ≠ 0`, whatever the snapshot; and the status of the
re-scan request does not change the events at all. -/
theorem verification_outcome (node cmd : String) (rc probe_rc : Int) (wipefs_out : String)
    (refreshed : List Disk) :
    results (verification node cmd rc probe_rc wipefs_out refreshed) =
      [ if rc = 0 then
          if ∃ x ∈ refreshed, x.node = node then
            (true, "Device wiped but still visible (check details)")
          else (true, "Device successfully wiped and removed")
        else (false, "Operation failed - see log for details") ] ∧
    ∀ probe_rc2 : Int, verification node cmd rc probe_rc2 wipefs_out refreshed =
      verification node cmd rc probe_rc wipefs_out refreshed := by
  refine ⟨?_, fun _ => rfl⟩
  have hs : still_exists refreshed node = true ↔ ∃ x ∈ refreshed, x.node = node := by
    simp [still_exists]
  by_cases hrc : rc = 0
  · by_cases hex : ∃ x ∈ refreshed, x.node = node
    · have : still_exists refreshed node = true := hs.mpr hex
      simp [verification, results, wipe_result, hrc, hex, this]
    · have : still_exists refreshed node = false := by
        rw [← Bool.not_eq_true, hs]; exact hex
      simp only [verification, results, wipe_result, hrc, this, if_neg hex]
      simp
  · simp [verification, results, wipe_result, hrc]

/-! ## Rejection stops the wipe attempt -/

/-- C3: for every selected device and typed line, when the confirmation step
rejects the line the ENTER round ends with the confirmation screen followed by
the failure result "The confirmation text did not match..." and nothing else:
no method screen, no command, no listing.  Conversely a round that runs a
command or lists the inventory has confirmed the identity and then read ENTER
on the method screen. -/
theorem rejected_stops (s : Stage1) (inp : WipeInput) (d0 : Disk)
    (hidx : 0 ≤ s.idx) (hsel : s.disks[s.idx.toNat]? = some d0) :
    ((confirmation s.loopIndex d0 inp.confirm).2 = false →
      enterKey s inp = .stay
        { s with disks := s.disks.set s.idx.toNat (synthSerial s.loopIndex d0) }
        [ Event.confirm_screen d0 (confirm_prompt d0),
          Event.show_result false "Wipe Cancelled" "Serial/node mismatch"
            "The confirmation text did not match. Operation aborted for safety." ]) ∧
    (∀ s1 evs, enterKey s inp = .stay s1 evs → (∃ e ∈ evs, e.isCommand = true) →
      (confirmation s.loopIndex d0 inp.confirm).2 = true ∧
        (inp.okc = 10 ∨ inp.okc = KEY_ENTER)) := by
  have hne : s.disks ≠ [] := by
    intro h; rw [h] at hsel; simp at hsel
  have hneg : ¬ s.idx < 0 := not_lt.mpr hidx
  constructor
  · intro hrej
    simp only [enterKey, if_neg hne, if_neg hneg, hsel, hrej, if_true]
    rfl
  · intro s1 evs hrun hcmd
    by_cases hc : (confirmation s.loopIndex d0 inp.confirm).2 = false
    · simp only [enterKey, if_neg hne, if_neg hneg, hsel, hc, if_true] at hrun
      injection hrun with _ hev
      subst hev
      obtain ⟨e, he, hcm⟩ := hcmd
      simp [mismatch_result] at he
      rcases he with rfl | rfl <;> simp [Event.isCommand] at hcm
    · have hc2 : (confirmation s.loopIndex d0 inp.confirm).2 = true := by
        simpa using hc
      refine ⟨hc2, ?_⟩
      by_contra hk
      have hb : (inp.okc = chr 'b' ∨ inp.okc = chr 'B') ∨
          ¬ (inp.okc = chr 'b' ∨ inp.okc = chr 'B') := em _
      rcases hb with hb | hb
      · simp only [enterKey, if_neg hne, if_neg hneg, hsel, hc, if_false, if_pos hb] at hrun
        injection hrun with _ hev
        subst hev
        obtain ⟨e, he, hcm⟩ := hcmd
        simp at he
        rcases he with rfl | rfl <;> simp [Event.isCommand] at hcm
      · simp only [enterKey, if_neg hne, if_neg hneg, hsel, hc, if_false, if_neg hb,
          if_pos hk] at hrun
        injection hrun with _ hev
        subst hev
        obtain ⟨e, he, hcm⟩ := hcmd
        simp at he
        rcases he with rfl | rfl <;> simp [Event.isCommand] at hcm

/-- The device "/dev/sda" with serial "ABC123", typed line "abc123": the round
ends with the rejection screen and the snapshot is kept. -/
theorem rejected_stops_witness :
    enterKey ⟨[⟨"sda", "/dev/sda", "Samsung", "ABC123", "1G", "0"⟩], 0, 0⟩
        ⟨"abc123", 10, 0, 0, "", none, none⟩
      = .stay ⟨[⟨"sda", "/dev/sda", "Samsung", "ABC123", "1G", "0"⟩], 0, 0⟩
        [ Event.confirm_screen ⟨"sda", "/dev/sda", "Samsung", "ABC123", "1G", "0"⟩
            "Type device SERIAL to confirm wipe:",
          Event.show_result false "Wipe Cancelled" "Serial/node mismatch"
            "The confirmation text did not match. Operation aborted for safety." ] :=
  (rejected_stops ⟨[⟨"sda", "/dev/sda", "Samsung", "ABC123", "1G", "0"⟩], 0, 0⟩
    ⟨"abc123", 10, 0, 0, "", none, none⟩ ⟨"sda", "/dev/sda", "Samsung", "ABC123", "1G", "0"⟩
    (by decide) (by decide)).1 (by decide)

/-! ## The synthetic serial and the index after a re-listing -/

theorem clamp_eq_min (idx : Int) (disks : List Disk) :
    clamp idx disks = min idx ((disks.length : Int) - 1) := by
  unfold clamp
  split
  · rw [min_eq_right]; omega
  · rw [min_eq_left]; omega

/-- An ENTER round that runs a command or lists the inventory went through the
whole branch: a device was selected, its identity confirmed, ENTER read on the
method screen, and the round ends with the re-listing and the index
adjustment. -/
theorem enterKey_command (s s1 : Stage1) (inp : WipeInput) (evs : List Event)
    (hrun : enterKey s inp = .stay s1 evs) (hcmd : ∃ e ∈ evs, e.isCommand = true) :
    ∃ d0, 0 ≤ s.idx ∧ s.disks[s.idx.toNat]? = some d0 ∧
      (confirmation s.loopIndex d0 inp.confirm).2 = true ∧
      (inp.okc = 10 ∨ inp.okc = KEY_ENTER) ∧
      s1 = ⟨list_disks inp.relisted, clamp s.idx (list_disks inp.relisted), s.loopIndex⟩ := by
  obtain ⟨e, he, hcm⟩ := hcmd
  unfold enterKey at hrun
  split at hrun
  · injection hrun with _ hev
    subst hev
    simp at he
  split at hrun
  · exact absurd hrun (by simp)
  rename_i hneg
  split at hrun
  · exact absurd hrun (by simp)
  rename_i d0 hsel
  simp only at hrun
  split at hrun
  · injection hrun with _ hev
    subst hev
    simp [mismatch_result] at he
    rcases he with rfl | rfl <;> simp [Event.isCommand] at hcm
  rename_i hc
  split at hrun
  · injection hrun with _ hev
    subst hev
    simp at he
    rcases he with rfl | rfl <;> simp [Event.isCommand] at hcm
  split at hrun
  · injection hrun with _ hev
    subst hev
    simp at he
    rcases he with rfl | rfl <;> simp [Event.isCommand] at hcm
  rename_i hk
  injection hrun with hs _
  refine ⟨d0, not_lt.mp hneg, hsel, by simpa using hc, not_not.mp hk, hs.symm⟩

/-- C10: a refresh by the R key leaves the highlighted index at
`min(idx, n - 1)`, where `n` is the size of the new snapshot, and so does the
re-listing that ends a wipe attempt.  This holds for every index and every
snapshot, in particular for a valid index and a non-empty new snapshot. -/
theorem refresh_clamps (s : Stage1) (ch : Int) (listing : Option String) (inp : WipeInput)
    (hch : ch = chr 'r' ∨ ch = chr 'R') :
    stage1Key s ch listing inp = .stay
      ⟨list_disks listing, min s.idx (((list_disks listing).length : Int) - 1), s.loopIndex⟩
      [Event.popen_lsblk] ∧
    (∀ s1 evs, enterKey s inp = .stay s1 evs → (∃ e ∈ evs, e.isCommand = true) →
      s1.disks = list_disks inp.relisted ∧
      s1.idx = min s.idx (((list_disks inp.relisted).length : Int) - 1)) := by
  constructor
  · have hup : ¬ (ch = KEY_UP ∧ s.idx > 0) := by
      rintro ⟨h, _⟩; rcases hch with rfl | rfl <;> exact absurd h (by decide)
    have hdown : ¬ (ch = KEY_DOWN ∧ s.idx < (s.disks.length : Int) - 1) := by
      rintro ⟨h, _⟩; rcases hch with rfl | rfl <;> exact absurd h (by decide)
    simp only [stage1Key, if_neg hup, if_neg hdown, if_pos hch, clamp_eq_min]
  · intro s1 evs hrun hcmd
    obtain ⟨d0, _, _, _, _, hs⟩ := enterKey_command s s1 inp evs hrun hcmd
    subst hs
    exact ⟨rfl, clamp_eq_min _ _⟩

/-- A snapshot of three devices with highlight 2, refreshed by R to a snapshot
of one device, ends with highlight 0. -/
theorem refresh_clamps_witness :
    stage1Key
        ⟨[⟨"sda", "/dev/sda", "", "A", "1G", "0"⟩, ⟨"sdb", "/dev/sdb", "", "B", "1G", "0"⟩,
          ⟨"sdc", "/dev/sdc", "", "C", "1G", "0"⟩], 2, 0⟩
        (chr 'r') (some "NAME=\"sda\" TYPE=\"disk\" SERIAL=\"A\" SIZE=\"1G\" ROTA=\"0\"\n")
        ⟨"", 0, 0, 0, "", none, none⟩
      = .stay ⟨[⟨"sda", "/dev/sda", "", "A", "1G", "0"⟩], 0, 0⟩ [Event.popen_lsblk] :=
  (refresh_clamps _ (chr 'r') _ ⟨"", 0, 0, 0, "", none, none⟩ (Or.inl rfl)).1

/-- C9, what the code does: no round of the local-disk loop changes the
counter `loopIndex`, and a device with an empty serial gets the serial "LOOP-"
followed by that counter.  In a session started with counter 0 on two loop
devices without serial, selecting the first slot, then the second, gives both
the serial "LOOP-0"; selecting the first slot, refreshing and selecting it
again gives it "LOOP-0" both times. -/
theorem synthetic_serial_repeats :
    (∀ s ch listing inp s1 evs, stage1Key s ch listing inp = .stay s1 evs →
      s1.loopIndex = s.loopIndex) ∧
    (∀ loopIndex d, d.serial = "" →
      (synthSerial loopIndex d).serial = "LOOP-" ++ toString loopIndex) ∧
    (stage1Run (stage1Init (some "NAME=\"loop0\" TYPE=\"loop\"\nNAME=\"loop1\" TYPE=\"loop\"\n") 0)
        [ (10, none, ⟨"x", 0, 0, 0, "", none, none⟩),
          (KEY_DOWN, none, ⟨"x", 0, 0, 0, "", none, none⟩),
          (10, none, ⟨"x", 0, 0, 0, "", none, none⟩) ]).map
        (fun r => (r.1.disks.map (fun d => d.serial), r.1.loopIndex))
      = some (["LOOP-0", "LOOP-0"], 0) ∧
    (stage1Run (stage1Init (some "NAME=\"loop0\" TYPE=\"loop\"\nNAME=\"loop1\" TYPE=\"loop\"\n") 0)
        [ (10, none, ⟨"x", 0, 0, 0, "", none, none⟩) ]).map
        (fun r => (r.1.disks.map (fun d => d.serial), r.1.loopIndex))
      = some (["LOOP-0", ""], 0) ∧
    (stage1Run (stage1Init (some "NAME=\"loop0\" TYPE=\"loop\"\nNAME=\"loop1\" TYPE=\"loop\"\n") 0)
        [ (10, none, ⟨"x", 0, 0, 0, "", none, none⟩),
          (chr 'r', some "NAME=\"loop0\" TYPE=\"loop\"\nNAME=\"loop1\" TYPE=\"loop\"\n",
            ⟨"x", 0, 0, 0, "", none, none⟩),
          (10, none, ⟨"x", 0, 0, 0, "", none, none⟩) ]).map
        (fun r => (r.1.disks.map (fun d => d.serial), r.1.loopIndex))
      = some (["LOOP-0", ""], 0) := by
  refine ⟨?_, ?_, by decide, by decide, by decide⟩
  · intro s ch listing inp s1 evs h
    unfold stage1Key at h
    split at h
    · injection h with hs _; subst hs; rfl
    split at h
    · injection h with hs _; subst hs; rfl
    split at h
    · injection h with hs _; subst hs; rfl
    split at h
    · exact absurd h (by simp)
    split at h
    · exact absurd h (by simp)
    split at h
    · unfold enterKey at h
      split at h
      · injection h with hs _; subst hs; rfl
      split at h
      · exact absurd h (by simp)
      split at h
      · exact absurd h (by simp)
      simp only at h
      split at h
      · injection h with hs _; subst hs; rfl
      split at h
      · injection h with hs _; subst hs; rfl
      split at h
      · injection h with hs _; subst hs; rfl
      · injection h with hs _; subst hs; rfl
    · injection h with hs _; subst hs; rfl
  · intro loopIndex d hd
    simp [synthSerial, hd]

/-! ## Android session -/

/-- C7 as stated fails: a target detected under fastboot is still the
detected target after key 2 has switched the mode to adb, and ENTER then runs
the wiper with mode adb and that identifier. -/
theorem mode_switch_keeps_target :
    androidRun androidInit
        [ (chr 'r', ⟨some "Found device ABC123\n", 0⟩), (chr '2', ⟨none, 0⟩) ]
      = some (⟨"adb", "ABC123"⟩,
          [ Event.draw_progress "Detecting Android Devices" "Scanning for fastboot devices...",
            Event.run_system
              "bash /opt/sentinel/scripts/detect-android.sh fastboot > /tmp/sentinel-detect.log 2>&1" ]) ∧
    androidKey ⟨"adb", "ABC123"⟩ 10 ⟨none, 0⟩
      = .stay ⟨"adb", ""⟩
          [ Event.draw_progress "Wiping Android Device" "Wiping ABC123 via adb",
            Event.run_system
              "bash /opt/sentinel/scripts/android-wipe.sh adb ABC123 > /tmp/sentinel-android.log 2>&1",
            Event.show_result true "Android Wipe" "Device wipe completed"
              "Device: ABC123\nMode: adb\nLog: /tmp/sentinel-android.log" ] := by
  constructor <;> decide

/-- C7, amended: a wipe attempt (ENTER with a detected target) runs the wiper
with the current mode and the detected identifier and leaves the detected
identifier empty, whatever the exit status; the mode keys 1 and 2 set the mode
and leave the detected identifier as it was. -/
theorem wipe_clears_target (s : Android) (ch : Int) (inp : AndroidInput)
    (hch : ch = 10 ∨ ch = KEY_ENTER) (hdet : s.detected_device ≠ "") :
    (∃ evs, androidKey s ch inp = .stay ⟨s.mode, ""⟩ evs ∧
      Event.run_system (android_wipe_cmd s.mode s.detected_device) ∈ evs ∧
      results evs = [ (decide (inp.wipe_rc = 0),
        if inp.wipe_rc = 0 then "Device wipe completed" else "Wipe operation failed") ]) ∧
    androidKey s (chr '1') inp = .stay ⟨"fastboot", s.detected_device⟩ [] ∧
    androidKey s (chr '2') inp = .stay ⟨"adb", s.detected_device⟩ [] := by
  refine ⟨?_, by simp [androidKey], ?_⟩
  · have h1 : ¬ ch = chr '1' := by rcases hch with rfl | rfl <;> decide
    have h2 : ¬ ch = chr '2' := by rcases hch with rfl | rfl <;> decide
    have h3 : ¬ (ch = chr 'b' ∨ ch = chr 'B') := by rcases hch with rfl | rfl <;> decide
    have h4 : ¬ (ch = chr 'q' ∨ ch = chr 'Q') := by rcases hch with rfl | rfl <;> decide
    have h5 : ¬ (ch = chr 'r' ∨ ch = chr 'R' ∨ (ch = 10 ∧ s.detected_device = "")) := by
      rintro (h | h | ⟨_, h⟩)
      · rcases hch with rfl | rfl <;> exact absurd h (by decide)
      · rcases hch with rfl | rfl <;> exact absurd h (by decide)
      · exact hdet h
    refine ⟨(androidWipe s inp).2, ?_, ?_, ?_⟩
    · simp only [androidKey, if_neg h1, if_neg h2, if_neg h3, if_neg h4, if_neg h5, if_pos hch]
      simp [androidWipe, hdet]
    · simp [androidWipe, hdet]
    · simp [androidWipe, hdet, results]
  · have h1 : ¬ chr '2' = chr '1' := by decide
    simp only [androidKey, if_neg h1, if_true]

/-- A wipe attempt that fails with status 1 on target "ABC123" in mode
fastboot leaves no detected target. -/
theorem wipe_clears_target_witness :
    ∃ evs, androidKey ⟨"fastboot", "ABC123"⟩ 10 ⟨none, 1⟩ = .stay ⟨"fastboot", ""⟩ evs ∧
      Event.run_system (android_wipe_cmd "fastboot" "ABC123") ∈ evs ∧
      results evs = [(false, "Wipe operation failed")] :=
  (wipe_clears_target ⟨"fastboot", "ABC123"⟩ 10 ⟨none, 1⟩ (Or.inl rfl) (by decide)).1

/-! ## Detection log -/

theorem find_last_of_none (line : List Char) (c : Char) (h : c ∉ line) :
    find_last_of line c = none := by
  have h2 : c ∉ line.reverse := by simpa using h
  simp [find_last_of, List.indexOf_eq_length.mpr h2]

theorem find_last_of_split (pre id : List Char) (c : Char) (h : c ∉ id) :
    find_last_of (pre ++ c :: id) c = some pre.length := by
  have h2 : c ∉ id.reverse := by simpa using h
  have hidx : (pre ++ c :: id).reverse.indexOf c = id.length := by
    rw [List.reverse_append, List.reverse_cons, List.append_assoc,
      List.indexOf_append_of_not_mem h2]
    simp
  unfold find_last_of
  rw [hidx]
  have hlen : (pre ++ c :: id).length = pre.length + id.length + 1 := by
    simp; omega
  rw [hlen, if_neg (by omega)]
  congr 1
  omega

theorem scanLog_skip (before rest : List (List Char))
    (h : ∀ l ∈ before, ¬ "Found".data <:+: l) : scanLog (before ++ rest) = scanLog rest := by
  induction before with
  | nil => rfl
  | cons l ls ih =>
    have hl : containsL "Found".data l = false := by
      rw [← Bool.not_eq_true, containsL_iff]; exact h l (List.mem_cons_self _ _)
    simp only [List.cons_append, scanLog, hl]
    exact ih (fun x hx => h x (List.mem_cons_of_mem _ hx))

/-- C8 as stated fails: in the log "Found" / "Found device ABC123" the second
line contains "Found" and a space and the text after its last space is
"ABC123", yet the identifier read is empty and detection reports that no
device was found, because the scan stops at the first line containing "Found". -/
theorem later_found_line_ignored :
    "Found device ABC123".data ∈ getlines "Found\nFound device ABC123\n" ∧
    "Found".data <:+: "Found device ABC123".data ∧
    ' ' ∈ "Found device ABC123".data ∧
    "Found device ABC123".data = "Found device".data ++ ' ' :: "ABC123".data ∧
    ' ' ∉ "ABC123".data ∧
    readDetectLog (some "Found\nFound device ABC123\n") = "" ∧
    detect androidInit ⟨some "Found\nFound device ABC123\n", 0⟩
      = (⟨"fastboot", ""⟩,
          [ Event.draw_progress "Detecting Android Devices" "Scanning for fastboot devices...",
            Event.run_system
              "bash /opt/sentinel/scripts/detect-android.sh fastboot > /tmp/sentinel-detect.log 2>&1",
            Event.show_result false "Detection Failed" "No fastboot device found"
              "Make sure device is connected and in correct mode" ]) := by
  refine ⟨by decide, by decide, by decide, by decide, by decide, by decide, by decide⟩

/-- C8, amended: for every detection log, if the first line that contains
"Found" contains a space, the identifier is the text after the last space of
that line and becomes the detected target; if no line contains "Found", the
identifier is empty, the failure result "No <mode> device found" is shown and
the session has no detected target. -/
theorem detect_first_found (s : Android) (log : String) (rc : Int) :
    (∀ before after line pre id, getlines log = before ++ line :: after →
      (∀ l ∈ before, ¬ "Found".data <:+: l) → "Found".data <:+: line →
      line = pre ++ ' ' :: id → ' ' ∉ id →
      readDetectLog (some log) = String.mk id ∧
        (detect s ⟨some log, rc⟩).1 = ⟨s.mode, String.mk id⟩) ∧
    ((∀ l ∈ getlines log, ¬ "Found".data <:+: l) →
      readDetectLog (some log) = "" ∧
      detect s ⟨some log, rc⟩
        = (⟨s.mode, ""⟩,
            [ Event.draw_progress "Detecting Android Devices"
                ("Scanning for " ++ s.mode ++ " devices..."),
              Event.run_system ("bash /opt/sentinel/scripts/detect-android.sh " ++ s.mode
                ++ " > /tmp/sentinel-detect.log 2>&1"),
              Event.show_result false "Detection Failed" ("No " ++ s.mode ++ " device found")
                "Make sure device is connected and in correct mode" ])) := by
  constructor
  · intro before after line pre id hlines hbefore hfound hline hid
    have hread : readDetectLog (some log) = String.mk id := by
      have hc : containsL "Found".data (pre ++ ' ' :: id) = true := by
        rw [containsL_iff, ← hline]; exact hfound
      simp only [readDetectLog, hlines, scanLog_skip before _ hbefore, scanLog, hline, hc,
        if_true, find_last_of_split pre id ' ' hid]
      simp
    exact ⟨hread, by simp only [detect, hread]⟩
  · intro hnone
    have hread : readDetectLog (some log) = "" := by
      have := scanLog_skip (getlines log) [] hnone
      simpa [readDetectLog, scanLog] using this
    refine ⟨hread, ?_⟩
    simp only [detect, hread, if_true]
    rfl

/-- The log line "Found device ABC123" gives the identifier "ABC123". -/
theorem detect_first_found_witness :
    readDetectLog (some "Found device ABC123\n") = "ABC123" ∧
      (detect androidInit ⟨some "Found device ABC123\n", 0⟩).1 = ⟨"fastboot", "ABC123"⟩ :=
  (detect_first_found androidInit "Found device ABC123\n" 0).1 [] []
    "Found device ABC123".data "Found device".data "ABC123".data
    (by decide) (by decide) (by decide) (by decide) (by decide)

/-! ## Inventory parser: reading the listing line by line -/

theorem tokensAux_append_space (c : Char) (hc : isspace c = true) :
    ∀ (l cur : List Char), tokensAux cur (l ++ [c]) = tokensAux cur l := by
  intro l
  induction l with
  | nil =>
    intro cur
    simp only [List.nil_append, tokensAux, hc, if_true]
  | cons a l ih =>
    intro cur
    rw [List.cons_append]
    simp only [tokensAux, ih]

theorem diskOfLine_newline (l : List Char) : diskOfLine (l ++ ['\n']) = diskOfLine l := by
  have h : parseLine (l ++ ['\n']) = parseLine l := by
    unfold parseLine tokens
    rw [tokensAux_append_space '\n' (by decide)]
  unfold diskOfLine
  rw [h]

theorem cstr_of_no_nul (buf : List Char) (h : '\x00' ∉ buf) : cstr buf = buf := by
  unfold cstr
  rw [List.takeWhile_eq_self_iff]
  intro c hc
  simp only [ne_eq, decide_eq_true_eq]
  rintro rfl
  exact h hc

theorem fgets_newline : ∀ (n : Nat) (l rest : List Char), '\n' ∉ l → l.length < n →
    fgets n (l ++ '\n' :: rest) = (l ++ ['\n'], rest) := by
  intro n l
  induction l generalizing n with
  | nil =>
    intro rest _ hn
    cases n with
    | zero => omega
    | succ n => simp [fgets]
  | cons a l ih =>
    intro rest hl hn
    cases n with
    | zero => omega
    | succ n =>
      have ha : a ≠ '\n' := fun h => hl (h ▸ List.mem_cons_self _ _)
      have hl2 : '\n' ∉ l := fun h => hl (List.mem_cons_of_mem _ h)
      have hn2 : l.length < n := by simp at hn; omega
      rw [List.cons_append]
      simp only [fgets, if_neg ha, ih n rest hl2 hn2]
      rfl

theorem fgets_full : ∀ (n : Nat) (l rest : List Char), '\n' ∉ l → l.length = n →
    fgets n (l ++ rest) = (l, rest) := by
  intro n l
  induction l generalizing n with
  | nil =>
    intro rest _ hn
    simp at hn
    subst hn
    simp [fgets]
  | cons a l ih =>
    intro rest hl hn
    cases n with
    | zero => simp at hn
    | succ n =>
      have ha : a ≠ '\n' := fun h => hl (h ▸ List.mem_cons_self _ _)
      have hl2 : '\n' ∉ l := fun h => hl (List.mem_cons_of_mem _ h)
      have hn2 : l.length = n := by simp at hn; omega
      rw [List.cons_append]
      simp only [fgets, if_neg ha, ih n rest hl2 hn2]

theorem fgets_eof : ∀ (n : Nat) (l : List Char), '\n' ∉ l → l.length ≤ n →
    fgets n l = (l, []) := by
  intro n l
  induction l generalizing n with
  | nil =>
    intro _ _
    cases n <;> simp [fgets]
  | cons a l ih =>
    intro hl hn
    cases n with
    | zero => simp at hn
    | succ n =>
      have ha : a ≠ '\n' := fun h => hl (h ▸ List.mem_cons_self _ _)
      have hl2 : '\n' ∉ l := fun h => hl (List.mem_cons_of_mem _ h)
      have hn2 : l.length ≤ n := by simp at hn; omega
      simp only [fgets, if_neg ha, ih n hl2 hn2]

theorem getlinesAux_line : ∀ (l cur rest : List Char), '\n' ∉ l →
    getlinesAux cur (l ++ '\n' :: rest) = (cur.reverse ++ l) :: getlinesAux [] rest := by
  intro l
  induction l with
  | nil =>
    intro cur rest _
    simp [getlinesAux]
  | cons a l ih =>
    intro cur rest hl
    have ha : a ≠ '\n' := fun h => hl (h ▸ List.mem_cons_self _ _)
    have hl2 : '\n' ∉ l := fun h => hl (List.mem_cons_of_mem _ h)
    rw [List.cons_append]
    simp only [getlinesAux, if_neg ha, ih (a :: cur) rest hl2]
    simp

theorem getlinesAux_last : ∀ (l cur : List Char), '\n' ∉ l → cur.reverse ++ l ≠ [] →
    getlinesAux cur l = [cur.reverse ++ l] := by
  intro l
  induction l with
  | nil =>
    intro cur _ hne
    have : cur ≠ [] := by simpa using hne
    simp [getlinesAux, this]
  | cons a l ih =>
    intro cur hl _
    have ha : a ≠ '\n' := fun h => hl (h ▸ List.mem_cons_self _ _)
    have hl2 : '\n' ∉ l := fun h => hl (List.mem_cons_of_mem _ h)
    simp only [getlinesAux, if_neg ha]
    rw [ih (a :: cur) hl2 (by simp)]
    simp

/-- A stream splits into its first line and, when a newline follows, the rest. -/
theorem split_first_line (s : List Char) :
    ∃ l : List Char, '\n' ∉ l ∧ (s = l ∨ ∃ rest, s = l ++ '\n' :: rest) := by
  induction s with
  | nil => exact ⟨[], by simp, Or.inl rfl⟩
  | cons a s ih =>
    by_cases ha : a = '\n'
    · exact ⟨[], by simp, Or.inr ⟨s, by simp [ha]⟩⟩
    · obtain ⟨l, hl, h⟩ := ih
      refine ⟨a :: l, ?_, ?_⟩
      · intro hmem
        rcases List.mem_cons.mp hmem with h1 | h1
        · exact ha h1.symm
        · exact hl h1
      · rcases h with h | ⟨rest, h⟩
        · exact Or.inl (by rw [h])
        · exact Or.inr ⟨rest, by rw [h]; rfl⟩

theorem readLoop_nil (fuel : Nat) : readLoop fuel [] = [] := by
  cases fuel <;> simp [readLoop]

theorem readLoop_lines (n : Nat) : ∀ (s : List Char) (fuel : Nat), s.length ≤ n →
    s.length ≤ fuel → (∀ l ∈ getlinesAux [] s, l.length ≤ 1023 ∧ '\x00' ∉ l) →
    (readLoop fuel s).filterMap (fun buf => diskOfLine (cstr buf))
      = (getlinesAux [] s).filterMap diskOfLine := by
  have hb : LINE_BUF - 1 = 1023 := rfl
  induction n with
  | zero =>
    intro s fuel hs _ _
    have : s = [] := List.length_eq_zero.mp (by omega)
    subst this
    simp [readLoop_nil, getlinesAux]
  | succ n ih =>
    intro s fuel hs hf hfit
    by_cases hnil : s = []
    · subst hnil
      simp [readLoop_nil, getlinesAux]
    obtain ⟨l, hl, h | ⟨rest, h⟩⟩ := split_first_line s
    · subst h
      have hlines : getlinesAux [] s = [s] := by
        simpa using getlinesAux_last s [] hl (by simpa using hnil)
      rw [hlines] at hfit ⊢
      obtain ⟨hlen, hnul⟩ := hfit s (List.mem_singleton_self _)
      cases fuel with
      | zero =>
        simp at hf
        exact absurd hf hnil
      | succ fuel =>
        simp only [readLoop, if_neg hnil, hb, fgets_eof 1023 s hl hlen, readLoop_nil,
          List.filterMap_cons, List.filterMap_nil, cstr_of_no_nul s hnul]
    · subst h
      have hlines : getlinesAux [] (l ++ '\n' :: rest) = l :: getlinesAux [] rest := by
        simpa using getlinesAux_line l [] rest hl
      rw [hlines] at hfit ⊢
      obtain ⟨hlen, hnul⟩ := hfit l (List.mem_cons_self _ _)
      have hrest : ∀ x ∈ getlinesAux [] rest, x.length ≤ 1023 ∧ '\x00' ∉ x :=
        fun x hx => hfit x (List.mem_cons_of_mem _ hx)
      have hslen : (l ++ '\n' :: rest).length = l.length + rest.length + 1 := by
        simp; omega
      rw [hslen] at hs hf
      cases fuel with
      | zero => omega
      | succ fuel =>
        by_cases hlt : l.length < 1023
        · have hnul2 : '\x00' ∉ l ++ ['\n'] := by
            intro hmem
            rcases List.mem_append.mp hmem with h1 | h1
            · exact hnul h1
            · simp at h1
          simp only [readLoop, if_neg hnil, hb, fgets_newline 1023 l rest hl hlt,
            List.filterMap_cons, cstr_of_no_nul _ hnul2, diskOfLine_newline,
            ih rest fuel (by omega) (by omega) hrest]
        · have heq : l.length = 1023 := by omega
          cases fuel with
          | zero => omega
          | succ fuel =>
            have h1 : fgets 1023 ('\n' :: rest) = (['\n'], rest) := by simp [fgets]
            have h2 : diskOfLine (cstr ['\n']) = none := by decide
            simp only [readLoop, if_neg hnil, hb, fgets_full 1023 l ('\n' :: rest) hl heq,
              List.filterMap_cons, cstr_of_no_nul _ hnul, h1,
              if_neg (List.cons_ne_nil '\n' rest)]
            simp only [h2, ih rest fuel (by omega) (by omega) hrest]

theorem fgets_rest_lt : ∀ (n : Nat) (s : List Char), s ≠ [] →
    (fgets (n + 1) s).2.length < s.length := by
  intro n
  induction n with
  | zero =>
    intro s hs
    cases s with
    | nil => exact absurd rfl hs
    | cons c s => by_cases hc : c = '\n' <;> simp [fgets, hc]
  | succ n ih =>
    intro s hs
    cases s with
    | nil => exact absurd rfl hs
    | cons c s =>
      by_cases hc : c = '\n'
      · simp [fgets, hc]
      · cases s with
        | nil => simp [fgets, hc]
        | cons b s =>
          have := ih (b :: s) (List.cons_ne_nil _ _)
          simp only [fgets, if_neg hc, List.length_cons] at this ⊢
          omega

/-- The loop terminates within `length of the stream` rounds: more fuel does
not change what is read. -/
theorem readLoop_fuel : ∀ (f1 f2 : Nat) (s : List Char), s.length ≤ f1 → s.length ≤ f2 →
    readLoop f1 s = readLoop f2 s := by
  intro f1
  induction f1 with
  | zero =>
    intro f2 s h1 _
    have : s = [] := List.length_eq_zero.mp (by omega)
    subst this
    simp [readLoop_nil]
  | succ f1 ih =>
    intro f2 s h1 h2
    by_cases hnil : s = []
    · subst hnil
      simp [readLoop_nil]
    · have hpos : 0 < s.length := List.length_pos.mpr hnil
      cases f2 with
      | zero => omega
      | succ f2 =>
        have hlt := fgets_rest_lt 1022 s hnil
        have hb : LINE_BUF - 1 = 1022 + 1 := rfl
        simp only [readLoop, if_neg hnil, hb]
        rw [ih f2 _ (by omega) (by omega)]

theorem diskOfLine_eq (l : List Char) :
    diskOfLine l =
      if valueOf l "TYPE" = "disk" ∨ valueOf l "TYPE" = "loop" then
        some ⟨valueOf l "NAME", "/dev/" ++ valueOf l "NAME", valueOf l "MODEL",
          valueOf l "SERIAL", valueOf l "SIZE", valueOf l "ROTA"⟩
      else none := by
  unfold diskOfLine valueOf
  by_cases h1 : (parseLine l).get "TYPE" = "disk"
  · simp [h1]
  · by_cases h2 : (parseLine l).get "TYPE" = "loop"
    · simp [h2]
    · simp [h1, h2]

theorem filterMap_diskOfLine (ls : List (List Char)) :
    ls.filterMap diskOfLine =
      (ls.filter (fun l => decide (valueOf l "TYPE" = "disk" ∨ valueOf l "TYPE" = "loop"))).map
        (fun l => ⟨valueOf l "NAME", "/dev/" ++ valueOf l "NAME", valueOf l "MODEL",
          valueOf l "SERIAL", valueOf l "SIZE", valueOf l "ROTA"⟩) := by
  induction ls with
  | nil => rfl
  | cons l ls ih =>
    rw [List.filterMap_cons, diskOfLine_eq]
    by_cases h : valueOf l "TYPE" = "disk" ∨ valueOf l "TYPE" = "loop"
    · simp only [if_pos h, List.filter_cons, decide_eq_true h, if_true, List.map_cons, ih]
    · simp only [if_neg h, List.filter_cons, decide_eq_false h, ih]
      simp

set_option maxRecDepth 1000000 in
/-- C6 as stated fails: the listing `longLine` has one line, of 1033
characters, whose TYPE value is "disk" and whose NAME value is "sda"; the
parser outputs one Device whose node is "/dev/" and not "/dev/sda", because it
reads the line in two pieces of at most 1023 characters and treats each piece
as a line. -/
theorem long_line_read_in_pieces :
    (getlines longLine).map (fun l => (l.length, valueOf l "TYPE", valueOf l "NAME"))
      = [(1033, "disk", "sda")] ∧
    list_disks (some longLine) = [⟨"", "/dev/", "", "", "", ""⟩] ∧
    list_disks (some longLine) ≠
      ((getlines longLine).filter
        (fun l => decide (valueOf l "TYPE" = "disk" ∨ valueOf l "TYPE" = "loop"))).map
        (fun l => ⟨valueOf l "NAME", "/dev/" ++ valueOf l "NAME", valueOf l "MODEL",
          valueOf l "SERIAL", valueOf l "SIZE", valueOf l "ROTA"⟩) := by
  refine ⟨by decide, by decide, by decide⟩

/-- A NUL character ends a line for the parser as well: on the line
`TYPE="part"`, NUL, space, `TYPE="disk"` the last TYPE value is "disk", but the
parser sees only `TYPE="part"` and outputs nothing. -/
theorem nul_ends_line :
    (getlines "TYPE=\"part\"\x00 TYPE=\"disk\"\n").map (fun l => valueOf l "TYPE") = ["disk"] ∧
    list_disks (some "TYPE=\"part\"\x00 TYPE=\"disk\"\n") = [] := by
  constructor <;> decide

/-- C6, amended: for every listing text whose lines fit the read buffer (at
most 1023 characters, none of them NUL), the parser outputs one Device per
line whose TYPE value is exactly "disk" or "loop", in line order, and none for
any other line; the node of each Device is "/dev/" followed by the NAME value
of its line, which is empty when the line assigns no NAME. -/
theorem list_disks_lines (text : String)
    (hfit : ∀ l ∈ getlines text, l.length ≤ 1023 ∧ '\x00' ∉ l) :
    list_disks (some text) =
      ((getlines text).filter
        (fun l => decide (valueOf l "TYPE" = "disk" ∨ valueOf l "TYPE" = "loop"))).map
        (fun l => ⟨valueOf l "NAME", "/dev/" ++ valueOf l "NAME", valueOf l "MODEL",
          valueOf l "SERIAL", valueOf l "SIZE", valueOf l "ROTA"⟩) ∧
    ∀ l : List Char, (∀ p ∈ parseLine l, p.1 ≠ "NAME") → valueOf l "NAME" = "" := by
  constructor
  · rw [← filterMap_diskOfLine]
    exact readLoop_lines text.data.length text.data text.data.length le_rfl le_rfl hfit
  · intro l hl
    have : (parseLine l).lookup "NAME" = none := by
      rw [List.lookup_eq_none_iff]
      intro p hp
      simpa using (fun h : "NAME" = p.1 => hl p hp h.symm)
    simp [valueOf, KV.get, this]

/-- A listing with a disk, a partition and a loop device, the last line
without NAME: the disk and the loop device are output, in this order, with
nodes "/dev/sda" and "/dev/". -/
theorem list_disks_lines_witness :
    list_disks (some "NAME=\"sda\" TYPE=\"disk\" SERIAL=\"S1\"\nNAME=\"sda1\" TYPE=\"part\"\nTYPE=\"loop\"\n")
      = [⟨"sda", "/dev/sda", "", "S1", "", ""⟩, ⟨"", "/dev/", "", "", "", ""⟩] :=
  (list_disks_lines "NAME=\"sda\" TYPE=\"disk\" SERIAL=\"S1\"\nNAME=\"sda1\" TYPE=\"part\"\nTYPE=\"loop\"\n"
    (by decide)).1.trans (by decide)

/-! ## Quote stripping -/

theorem parseToken_key_value (key v : List Char) (hkey : '=' ∉ key) :
    parseToken (key ++ '=' :: v) = some (String.mk key, String.mk (unquote v)) := by
  have hidx : (key ++ '=' :: v).indexOf '=' = key.length := by
    rw [List.indexOf_append_of_not_mem hkey]
    simp
  have hlen : (key ++ '=' :: v).length = key.length + (v.length + 1) := by simp
  have htake : (key ++ '=' :: v).take key.length = key := by simp
  have hdrop : (key ++ '=' :: v).drop (key.length + 1) = v := by
    rw [← List.drop_drop]
    simp
  unfold parseToken
  simp only [hidx, htake, hdrop]
  rw [if_neg (by rw [hlen]; omega)]

theorem unquote_both (v : List Char) (hsize : v.length < 2 ^ SIZE_BITS) (hlen : 2 ≤ v.length)
    (hfront : v.head? = some '"') (hback : v.getLast? = some '"') :
    unquote v = (v.drop 1).dropLast := by
  have hcount : (v.length + 2 ^ SIZE_BITS - 2) % 2 ^ SIZE_BITS = v.length - 2 := by
    simp only [SIZE_BITS] at hsize ⊢
    omega
  have hne : v.length ≠ 0 := by omega
  simp only [unquote, hne, hfront, hback, ne_eq, not_false_eq_true, and_self, if_true, substr,
    hcount]
  rw [List.dropLast_eq_take, List.length_drop]
  congr 1

/-- C11, what the code does: for a token KEY=VALUE the parsed value is the
unquoted VALUE, which is VALUE without its first and last character when VALUE
has at least two characters and both a leading and a trailing double quote,
is VALUE unchanged when the leading or the trailing double quote is missing,
and is the empty string, not VALUE, when VALUE is a single double quote. -/
theorem unquote_value (key v : List Char) (hkey : '=' ∉ key)
    (hsize : v.length < 2 ^ SIZE_BITS) :
    parseToken (key ++ '=' :: v) = some (String.mk key, String.mk (unquote v)) ∧
    (2 ≤ v.length → v.head? = some '"' → v.getLast? = some '"' →
      unquote v = (v.drop 1).dropLast) ∧
    (v.head? ≠ some '"' ∨ v.getLast? ≠ some '"' → unquote v = v) ∧
    (v = ['"'] → unquote v = []) := by
  refine ⟨parseToken_key_value key v hkey, unquote_both v hsize, ?_, ?_⟩
  · intro h
    unfold unquote
    rw [if_neg]
    rintro ⟨_, h1, h2⟩
    rcases h with h | h
    · exact h h1
    · exact h h2
  · rintro rfl
    decide

/-- The token `SERIAL="`, whose value is a single double quote: the parsed
value is empty, also as the SERIAL value of a listing line ending in it. -/
theorem unquote_value_witness :
    parseToken "SERIAL=\"".data = some ("SERIAL", "") ∧
    unquote ['"'] = [] ∧
    valueOf "NAME=\"sda\" TYPE=\"disk\" SERIAL=\"\n".data "SERIAL" = "" :=
  ⟨(unquote_value "SERIAL".data ['"'] (by decide) (by decide)).1.trans (by decide),
    (unquote_value "SERIAL".data ['"'] (by decide) (by decide)).2.2.2 rfl,
    by decide⟩

/-! ## Bounds of the highlighted index -/

theorem clamp_bounds (idx : Int) (disks : List Disk) (h : -1 ≤ idx) :
    -1 ≤ clamp idx disks ∧ (disks ≠ [] → clamp idx disks < (disks.length : Int)) := by
  unfold clamp
  split
  · exact ⟨by omega, fun _ => by omega⟩
  · exact ⟨h, fun _ => by omega⟩

theorem enterKey_bounds (s s1 : Stage1) (inp : WipeInput) (evs : List Event)
    (h : enterKey s inp = .stay s1 evs) (hlow : -1 ≤ s.idx)
    (hup : s.disks ≠ [] → s.idx < (s.disks.length : Int)) :
    -1 ≤ s1.idx ∧ (s1.disks ≠ [] → s1.idx < (s1.disks.length : Int)) := by
  have hset : ∀ (d : Disk), -1 ≤ s.idx ∧ (s.disks.set s.idx.toNat d ≠ [] →
      s.idx < ((s.disks.set s.idx.toNat d).length : Int)) := by
    intro d
    refine ⟨hlow, fun hne => ?_⟩
    rw [List.length_set]
    apply hup
    intro hnil
    apply hne
    rw [hnil]
    rfl
  unfold enterKey at h
  split at h
  · injection h with hs _; subst hs; exact ⟨hlow, hup⟩
  split at h
  · exact absurd h (by simp)
  split at h
  · exact absurd h (by simp)
  simp only at h
  split at h
  · injection h with hs _; subst hs; exact hset _
  split at h
  · injection h with hs _; subst hs; exact hset _
  split at h
  · injection h with hs _; subst hs; exact hset _
  · injection h with hs _; subst hs; exact clamp_bounds _ _ hlow

theorem stage1Key_bounds (s s1 : Stage1) (ch : Int) (listing : Option String)
    (inp : WipeInput) (evs : List Event)
    (h : stage1Key s ch listing inp = .stay s1 evs) (hlow : -1 ≤ s.idx)
    (hup : s.disks ≠ [] → s.idx < (s.disks.length : Int)) :
    -1 ≤ s1.idx ∧ (s1.disks ≠ [] → s1.idx < (s1.disks.length : Int)) := by
  unfold stage1Key at h
  split at h
  · rename_i hc
    injection h with hs _; subst hs
    exact ⟨by simp only; omega, fun hne => by have := hup hne; simp only; omega⟩
  split at h
  · rename_i hc
    injection h with hs _; subst hs
    exact ⟨by simp only; omega, fun _ => by simp only; omega⟩
  split at h
  · injection h with hs _; subst hs
    exact clamp_bounds _ _ hlow
  split at h
  · exact absurd h (by simp)
  split at h
  · exact absurd h (by simp)
  split at h
  · exact enterKey_bounds s s1 inp evs h hlow hup
  · injection h with hs _; subst hs; exact ⟨hlow, hup⟩

theorem stage1Run_bounds : ∀ (keys : List (Int × Option String × WipeInput))
    (s s2 : Stage1) (evs : List Event), stage1Run s keys = some (s2, evs) → -1 ≤ s.idx →
    (s.disks ≠ [] → s.idx < (s.disks.length : Int)) →
    -1 ≤ s2.idx ∧ (s2.disks ≠ [] → s2.idx < (s2.disks.length : Int)) := by
  intro keys
  induction keys with
  | nil =>
    intro s s2 evs h hlow hup
    simp only [stage1Run, Option.some.injEq, Prod.mk.injEq] at h
    obtain ⟨rfl, _⟩ := h
    exact ⟨hlow, hup⟩
  | cons k keys ih =>
    intro s s2 evs h hlow hup
    obtain ⟨ch, listing, inp⟩ := k
    simp only [stage1Run] at h
    split at h
    · rename_i s1 ev hk
      obtain ⟨h1, h2⟩ := stage1Key_bounds s s1 ch listing inp ev hk hlow hup
      split at h
      · rename_i s3 ev3 hr
        simp only [Option.some.injEq, Prod.mk.injEq] at h
        obtain ⟨rfl, _⟩ := h
        exact ih s1 s3 ev3 hr h1 h2
      · exact absurd h (by simp)
    · exact absurd h (by simp)

/-- C12, what the code does: in every state reached from the start of the
local-disk flow the highlighted index is at least -1 and, when the snapshot is
non-empty, below its size; with an empty snapshot ENTER selects nothing.  But
the index -1 is reached with a non-empty snapshot: from a snapshot of one
device, R on an empty listing sets the index to -1, R on the one-device
listing leaves it at -1, and ENTER then indexes the snapshot at -1. -/
theorem highlight_reaches_minus_one :
    (∀ listing0 loopIndex keys s evs,
      stage1Run (stage1Init listing0 loopIndex) keys = some (s, evs) →
      -1 ≤ s.idx ∧ (s.disks ≠ [] → s.idx < (s.disks.length : Int))) ∧
    (∀ (s : Stage1) (ch : Int) (listing : Option String) (inp : WipeInput),
      s.disks = [] → ch = 10 ∨ ch = KEY_ENTER → stage1Key s ch listing inp = .stay s []) ∧
    (stage1Run (stage1Init (some "NAME=\"sda\" TYPE=\"disk\" SERIAL=\"S1\"\n") 0)
        [ (chr 'r', some "", ⟨"", 0, 0, 0, "", none, none⟩),
          (chr 'r', some "NAME=\"sda\" TYPE=\"disk\" SERIAL=\"S1\"\n",
            ⟨"", 0, 0, 0, "", none, none⟩) ]).map (fun r => r.1)
      = some ⟨[⟨"sda", "/dev/sda", "", "S1", "", ""⟩], -1, 0⟩ ∧
    stage1Key ⟨[⟨"sda", "/dev/sda", "", "S1", "", ""⟩], -1, 0⟩ 10 none
        ⟨"S1", 10, 0, 0, "", none, none⟩ = .undefined ∧
    stage1Run (stage1Init (some "NAME=\"sda\" TYPE=\"disk\" SERIAL=\"S1\"\n") 0)
        [ (chr 'r', some "", ⟨"", 0, 0, 0, "", none, none⟩),
          (chr 'r', some "NAME=\"sda\" TYPE=\"disk\" SERIAL=\"S1\"\n",
            ⟨"", 0, 0, 0, "", none, none⟩),
          (10, none, ⟨"S1", 10, 0, 0, "", none, none⟩) ] = none := by
  refine ⟨?_, ?_, by decide, by decide, by decide⟩
  · intro listing0 loopIndex keys s evs h
    refine stage1Run_bounds keys (stage1Init listing0 loopIndex) s evs h ?_ ?_
    · simp [stage1Init]
    · intro hne
      have := List.length_pos.mpr hne
      simp only [stage1Init] at this ⊢
      omega
  · intro s ch listing inp hempty hch
    have h1 : ¬ (ch = KEY_UP ∧ s.idx > 0) := by
      rintro ⟨h, _⟩; rcases hch with rfl | rfl <;> exact absurd h (by decide)
    have h2 : ¬ (ch = KEY_DOWN ∧ s.idx < (s.disks.length : Int) - 1) := by
      rintro ⟨h, _⟩; rcases hch with rfl | rfl <;> exact absurd h (by decide)
    have h3 : ¬ (ch = chr 'r' ∨ ch = chr 'R') := by rcases hch with rfl | rfl <;> decide
    have h4 : ¬ (ch = chr 'b' ∨ ch = chr 'B') := by rcases hch with rfl | rfl <;> decide
    have h5 : ¬ (ch = chr 'q' ∨ ch = chr 'Q') := by rcases hch with rfl | rfl <;> decide
    simp only [stage1Key, if_neg h1, if_neg h2, if_neg h3, if_neg h4, if_neg h5, if_pos hch,
      enterKey, if_pos hempty]

end DevPolio
